import Mathlib

/-!
Verification of the DQN training script (`dqn.py`) against its design
specification.  The Python source is shallowly embedded below: the replay
buffer (a `collections.deque` with `maxlen`), the epsilon schedule of
`Agent.select_action`, the target computation of `Agent.optimize`, the
online/target network pair of `Agent._target_update`, and the inner
training loop of `Agent.train`.
-/

namespace DQNSpec

/-- Hyperparameter `BATCH_SIZE = 16` from the top of `dqn.py`. -/
def BATCH_SIZE : Nat := 16

/-- One step of a Python `deque(maxlen := cap)`: `append x` keeps the newest
`cap` elements, dropping from the opposite (oldest) end when full.  The list
is kept oldest-first, matching the deque's left-to-right order. -/
def dequeAppend (cap : Nat) (l : List α) (x : α) : List α :=
  (l ++ [x]).drop (l.length + 1 - cap)

/-- The `Transition` namedtuple of `ReplayMemory.__init__`:
`('state', 'action', 'reward', 'next_state')`.  Note there is no `done`
field: terminal-state information is not stored. -/
structure Transition (σ α ρ : Type) where
  state : σ
  action : α
  reward : ρ
  next_state : σ
  deriving DecidableEq, Repr

/-- State of `ReplayMemory`: the deque `memory` (with `maxlen = capacity`)
and the `_available` latch flag. -/
structure ReplayMemory (τ : Type) where
  capacity : Nat
  memory : List τ
  availFlag : Bool
  deriving DecidableEq, Repr

/-- `ReplayMemory.__init__(capacity=20000)`: empty deque, `_available = False`. -/
def ReplayMemory.init (capacity : Nat := 20000) : ReplayMemory τ :=
  { capacity := capacity, memory := [], availFlag := false }

/-- `ReplayMemory.put`: converts the fields to tensors (a representation
change, identity on values) and appends the transition to the deque. -/
def ReplayMemory.put (s : ReplayMemory τ) (t : τ) : ReplayMemory τ :=
  { s with memory := dequeAppend s.capacity s.memory t }

/-- A sequence of `put` calls, oldest first. -/
def ReplayMemory.putMany (s : ReplayMemory τ) (ts : List τ) : ReplayMemory τ :=
  ts.foldl ReplayMemory.put s

/-- `ReplayMemory.size`: `len(self.memory)`. -/
def ReplayMemory.size (s : ReplayMemory τ) : Nat := s.memory.length

/-- `ReplayMemory.is_available`: returns `True` immediately if the latch is
set; otherwise sets the latch to `len(memory) > BATCH_SIZE` and returns it.
The call both queries and mutates, so it returns the result together with
the updated state. -/
def ReplayMemory.is_available (s : ReplayMemory τ) : Bool × ReplayMemory τ :=
  if s.availFlag then (true, s)
  else
    let avail := decide (BATCH_SIZE < s.memory.length)
    (avail, { s with availFlag := avail })

/-- `ReplayMemory.sample(batch_size)` calls `random.sample(memory, k)`.  The
randomness is modelled by an oracle list `idxs` of positions: `random.sample`
draws `k` distinct positions of the population, raising `ValueError`
(modelled as `none`) when `k` exceeds the population size.  The subsequent
`zip` repackaging into a struct-of-lists is a transposition and is elided. -/
def ReplayMemory.sample [Inhabited τ] (s : ReplayMemory τ) (k : Nat)
    (idxs : List Nat) : Option (List τ) :=
  if k ≤ s.memory.length ∧ idxs.length = k ∧ idxs.Nodup ∧
      (∀ i ∈ idxs, i < s.memory.length)
  then some (idxs.map (fun i => s.memory.getD i default))
  else none

/-! Epsilon schedule and action selection (`Agent.select_action`,
`Agent.play_step`).  Python/numpy floats are modelled as `Option ℝ`: `none`
stands for IEEE NaN (produced here only by `np.mean` of an empty sequence)
and the arithmetic used on the epsilon path propagates NaN. -/

/-- Hyperparameter `EPSILON_START = 1.0`. -/
noncomputable def EPSILON_START : ℝ := 1.0

/-- Hyperparameter `EPSILON_END = 0.05`. -/
noncomputable def EPSILON_END : ℝ := 0.05

/-- Hyperparameter `EPSILON_DECAY = 20000`. -/
noncomputable def EPSILON_DECAY : ℝ := 20000

/-- Float addition with NaN propagation. -/
noncomputable def nanAdd (a b : Option ℝ) : Option ℝ :=
  match a, b with
  | some x, some y => some (x + y)
  | _, _ => none

/-- Float division with NaN propagation.  On the epsilon path the
denominator `1 + play_step` is never the number 0 (play lengths are
non-negative), so the division-by-zero behaviour is irrelevant here. -/
noncomputable def nanDiv (a b : Option ℝ) : Option ℝ :=
  match a, b with
  | some x, some y => some (x / y)
  | _, _ => none

/-- The comparison `self.epsilon > random()`: any comparison against NaN is
`False` in IEEE (and Python) semantics. -/
noncomputable def nanGtB (a : Option ℝ) (r : ℝ) : Bool :=
  match a with
  | none => false
  | some x => decide (r < x)

/-- `Agent.play_step`: `np.mean(self._play_steps)`.  The mean of an empty
sequence is NaN (`none`). -/
noncomputable def playStepAvg (l : List Nat) : Option ℝ :=
  if l = [] then none
  else some ((l.map (fun n => (n : ℝ))).sum / l.length)

/-- The epsilon value computed at real (non-NaN) inputs: the closed form of
lines 195–196 of `dqn.py`,
`EPSILON_END + (EPSILON_START - EPSILON_END) * exp(-1. * step / EPSILON_DECAY)
 + 5 / (1 + play_step)`. -/
noncomputable def epsilonAt (step : Nat) (avg : ℝ) : ℝ :=
  EPSILON_END + (EPSILON_START - EPSILON_END) *
    Real.exp (-1 * (step : ℝ) / EPSILON_DECAY) + 5 / (1 + avg)

/-- The epsilon assignment of `select_action` in the NaN-aware float model:
the exp term is a real number for every step; only the bonus term
`5 / (1 + play_step)` can be NaN (when `play_step` is). -/
noncomputable def epsilonF (step : Nat) (avg : Option ℝ) : Option ℝ :=
  nanAdd
    (some (EPSILON_END + (EPSILON_START - EPSILON_END) *
      Real.exp (-1 * (step : ℝ) / EPSILON_DECAY)))
    (nanDiv (some 5) (nanAdd (some 1) avg))

/-- `torch.max` over the action dimension: maximum of the per-action value
estimates.  The network's action dimension is `action_space.n ≥ 1`, so the
empty-list default is never reached. -/
noncomputable def tmax : List ℝ → ℝ
  | [] => 0
  | x :: xs => xs.foldl max x

/-- `.max(1)[1]` of `select_action`'s greedy branch: the index of a maximal
entry of the online network's output (first occurrence of the maximum). -/
noncomputable def netArgmax (q : List ℝ) : Nat :=
  q.indexOf (tmax q)

/-- `Agent.select_action` after the epsilon assignment: with probability
epsilon (i.e. when `epsilon > random()`) a uniformly random action
(`randomA`, supplied by the environment's sampler) is returned, otherwise
the argmax of the online network's output `q`. -/
noncomputable def selectActionM (eps : Option ℝ) (r : ℝ) (randomA : Nat)
    (q : List ℝ) : Nat :=
  if nanGtB eps r then randomA else netArgmax q

/-! Target computation of `Agent.optimize` (lines 295–308).  A sampled batch
is a list of stored transitions; `target_values = target(next_state).max(1)[0]`
and the loss compares `q_values` against `reward_batch + target_values * gamma`.
The stored `Transition` has no terminal flag, so the target expression cannot
(and does not) mask terminal transitions. -/

/-- The per-transition values `target(next_state_batch).max(1)[0]` computed
by `optimize` from the target network `qTarget`. -/
noncomputable def targetVals (qTarget : σ → List ℝ)
    (batch : List (Transition σ α ℝ)) : List ℝ :=
  batch.map (fun t => tmax (qTarget t.next_state))

/-- The training targets `reward_batch + (target_values * gamma)` that
`optimize` feeds to the smooth-L1 loss. -/
noncomputable def lossTargets (gamma : ℝ) (qTarget : σ → List ℝ)
    (batch : List (Transition σ α ℝ)) : List ℝ :=
  List.zipWith (fun r tv => r + tv * gamma)
    (batch.map Transition.reward) (targetVals qTarget batch)

/-- The data available in `Agent.train` at the moment `replay.put` is
called: the pre-skip stacked state, the chosen action, the last substep's
reward, the post-skip state, and the environment's `done` flag for the
transition. -/
structure EnvTransition (σ α ρ : Type) where
  state : σ
  action : α
  reward : ρ
  next_state : σ
  done : Bool

/-- The call `self.replay.put(states, action, reward, next_states)`:
the stored `Transition` namedtuple has no field for the `done` flag, which
is simply not passed along. -/
def storeTransition (t : EnvTransition σ α ρ) : Transition σ α ρ :=
  ⟨t.state, t.action, t.reward, t.next_state⟩

/-! Online/target network pair.  `self.target = copy.deepcopy(self.dqn)`
allocates fresh, independent storage for the parameter set; optimizer steps
mutate `self.dqn`'s parameters in place.  A small heap (list of parameter
sets indexed by address) makes the aliasing behaviour explicit: an aliasing
implementation would reuse the online address instead of allocating. -/

structure Nets (P : Type) where
  heap : List P
  dqnRef : Nat
  targetRef : Nat

/-- Dereference a parameter-set address. -/
def Nets.read [Inhabited P] (a : Nets P) (r : Nat) : P :=
  a.heap.getD r default

/-- `Agent._target_update`: `self.target = copy.deepcopy(self.dqn)` — a new
cell is allocated holding a copy of the online parameters and the target
reference is repointed to it. -/
def Nets.targetUpdate [Inhabited P] (a : Nets P) : Nets P :=
  { heap := a.heap ++ [a.heap.getD a.dqnRef default],
    dqnRef := a.dqnRef, targetRef := a.heap.length }

/-- One optimizer step (`optimize`'s backward/step): mutates the online
network's parameter cell in place through an arbitrary update function. -/
def Nets.onlineStep [Inhabited P] (f : P → P) (a : Nets P) : Nets P :=
  { a with heap := a.heap.set a.dqnRef (f (a.heap.getD a.dqnRef default)) }

/-! Inner training loop of `Agent.train` (lines 235–283).  The environment
is an oracle: the `i`-th `env.step` call of the episode returns `stepO i`,
and `get_screen()` after `t` environment steps returns `screenO t`.  The
action returned by the `i`-th `select_action` call is `policy i` (the
selection internals are modelled separately above).  `optimize` mutates only
the networks and the optimizer (modelled by `Nets`); on this state its only
effect is the `_available` latch of the `is_available()` guard.  The target
update and checkpoint branches likewise touch only the networks and disk. -/

structure EnvStep (ρ : Type) where
  reward : ρ
  done : Bool
  deriving DecidableEq, Repr

structure TrainSt (φ ρ α : Type) where
  stepC : Nat
  envT : Nat
  sel : Nat
  buffer : List φ
  states : List φ
  replay : ReplayMemory (Transition (List φ) α ρ)
  playStepsLog : List Nat
  playSteps : Nat

/-- `Agent.add_state`: push one frame onto the `action_repeat`-bounded
frame deque. -/
def addState (ar : Nat) (buf : List φ) (f : φ) : List φ :=
  dequeAppend ar buf f

/-- The frame buffer built by `Agent.get_initial_states`: the episode's
first frame replicated `action_repeat` times (both the stacked `states`
array and the `_state_buffer` deque). -/
def initialBuffer (ar : Nat) (f : φ) : List φ :=
  List.replicate ar f

/-- The `for _ in range(frame_skipping)` loop: repeat the chosen action,
pushing each new frame, breaking early when `done`.  Arguments: remaining
iterations, (environment time, frame buffer), and the last observed
`(reward, done)` pair (`none` before the first iteration — Python would
raise `NameError` if the loop body never ran). -/
def skipLoop (stepO : Nat → EnvStep ρ) (screenO : Nat → φ) (ar : Nat) :
    Nat → Nat × List φ → Option (ρ × Bool) → (Nat × List φ) × Option (ρ × Bool)
  | 0, tb, last => (tb, last)
  | k + 1, (t, buf), _ =>
      let e := stepO t
      let buf2 := addState ar buf (screenO (t + 1))
      if e.done then ((t + 1, buf2), some (e.reward, true))
      else skipLoop stepO screenO ar k (t + 1, buf2) (some (e.reward, false))

/-- Number of `env.step` calls the frame-skip loop executes: it stops at the
first `done` substep, else runs all `k` iterations. -/
def execCount (stepO : Nat → EnvStep ρ) : Nat → Nat → Nat
  | _, 0 => 0
  | t, k + 1 => if (stepO t).done then 1 else 1 + execCount stepO (t + 1) k

/-- One iteration of the inner `while True` loop: select an action, run the
frame-skip loop, store one `Transition` (built from the pre-skip `states`,
the action, the reward variable left by the last executed substep, and the
post-skip frame buffer — the `done` flag is not stored), then consult
`is_available()` (running `optimize` — a network effect — when it is true).
Returns the updated state and the `done` flag that the loop then checks. -/
def innerStep (stepO : Nat → EnvStep ρ) (screenO : Nat → φ) (policy : Nat → α)
    (ar fs : Nat) (s : TrainSt φ ρ α) : Option (TrainSt φ ρ α × Bool) :=
  let a := policy s.sel
  let res := skipLoop stepO screenO ar fs (s.envT, s.buffer) none
  match res.2 with
  | none => none
  | some (r, d) =>
      let nextStates := res.1.2
      let replay2 := s.replay.put ⟨s.states, a, r, nextStates⟩
      some ({ s with
                envT := res.1.1
                sel := s.sel + 1
                buffer := res.1.2
                states := nextStates
                replay := (replay2.is_available).snd }, d)

/-- The inner `while True` loop, fuel-bounded: on `done` it breaks and the
episode's `play_steps` count is appended to the 5-bounded `_play_steps`
deque; otherwise `self.step` and `play_steps` are incremented and the loop
continues. -/
def episodeLoop (stepO : Nat → EnvStep ρ) (screenO : Nat → φ) (policy : Nat → α)
    (ar fs : Nat) : Nat → TrainSt φ ρ α → Option (TrainSt φ ρ α)
  | 0, _ => none
  | fuel + 1, s =>
      match innerStep stepO screenO policy ar fs s with
      | none => none
      | some (s2, true) =>
          some { s2 with playStepsLog := dequeAppend 5 s2.playStepsLog s2.playSteps }
      | some (s2, false) =>
          episodeLoop stepO screenO policy ar fs fuel
            { s2 with stepC := s2.stepC + 1, playSteps := s2.playSteps + 1 }

/-- One iteration of the outer `while True` loop of `Agent.train`: reset the
environment clock, initialize the frame buffer and `states` from the first
frame via `get_initial_states`, zero `play_steps`, and run the inner loop. -/
def runEpisode (stepO : Nat → EnvStep ρ) (screenO : Nat → φ) (policy : Nat → α)
    (ar fs fuel : Nat) (s : TrainSt φ ρ α) : Option (TrainSt φ ρ α) :=
  episodeLoop stepO screenO policy ar fs fuel
    { s with
        envT := 0
        buffer := initialBuffer ar (screenO 0)
        states := initialBuffer ar (screenO 0)
        playSteps := 0 }

/- Helper lemmas about the deque. -/

theorem dequeAppend_length (cap : Nat) (l : List α) (x : α) :
    (dequeAppend cap l x).length = min (l.length + 1) cap := by
  simp [dequeAppend]
  omega

theorem putMany_memory (cap : Nat) (l ts : List τ) (av : Bool)
    (hl : l.length ≤ cap) :
    (ReplayMemory.putMany ⟨cap, l, av⟩ ts).memory =
      (l ++ ts).drop (l.length + ts.length - cap) := by
  induction ts generalizing l with
  | nil =>
      simp [ReplayMemory.putMany, Nat.sub_eq_zero_of_le hl]
  | cons t ts ih =>
      have hstep : ReplayMemory.putMany ⟨cap, l, av⟩ (t :: ts) =
          ReplayMemory.putMany ⟨cap, dequeAppend cap l t, av⟩ ts := rfl
      rw [hstep]
      have hlen : (dequeAppend cap l t).length ≤ cap := by
        rw [dequeAppend_length]; omega
      rw [ih _ hlen]
      rw [dequeAppend_length]
      show ((l ++ [t]).drop (l.length + 1 - cap) ++ ts).drop _ = _
      have hle : l.length + 1 - cap ≤ (l ++ [t]).length := by
        simp only [List.length_append, List.length_singleton]; omega
      rw [← List.drop_append_of_le_length hle]
      rw [List.drop_drop]
      have : (l ++ [t]) ++ ts = l ++ t :: ts := by simp
      rw [this]
      congr 1
      simp
      omega

theorem putMany_availFlag (s : ReplayMemory τ) (ts : List τ) :
    (s.putMany ts).availFlag = s.availFlag := by
  induction ts generalizing s with
  | nil => rfl
  | cons t ts ih => exact ih _

theorem putMany_capacity (s : ReplayMemory τ) (ts : List τ) :
    (s.putMany ts).capacity = s.capacity := by
  induction ts generalizing s with
  | nil => rfl
  | cons t ts ih => exact ih _

theorem memory_le_capacity (cap : Nat) (l ts : List τ) (av : Bool)
    (hl : l.length ≤ cap) :
    (ReplayMemory.putMany ⟨cap, l, av⟩ ts).memory.length ≤ cap := by
  rw [putMany_memory cap l ts av hl]
  simp
  omega

theorem init_putMany_memory (cap : Nat) (ts : List τ) :
    ((ReplayMemory.init cap).putMany ts).memory = ts.drop (ts.length - cap) := by
  have h := putMany_memory cap [] ts false (by simp)
  simpa [ReplayMemory.init] using h

/-- C2: `is_available` is a monotonic latch.  First conjunct: starting from a
freshly constructed `ReplayMemory()` (default capacity 20000), after any
sequence of `put` calls the call returns `true` exactly when more than
`BATCH_SIZE` items have been stored (so it is `false` while at most
`BATCH_SIZE` items have been stored and `true` on every call thereafter).
Second conjunct: from any state, once a call has returned `true`, every
later call returns `true` after arbitrarily many further `put` calls —
evictions included — because the `_available` flag latches. -/
theorem is_available_latch (ts : List τ) :
    (((ReplayMemory.init : ReplayMemory τ).putMany ts).is_available).fst =
      decide (BATCH_SIZE < ts.length)
    ∧ (∀ s : ReplayMemory τ, (s.is_available).fst = true →
        ∀ us : List τ, ((((s.is_available).snd).putMany us).is_available).fst = true) := by
  constructor
  · have hflag : ((ReplayMemory.init : ReplayMemory τ).putMany ts).availFlag = false := by
      rw [putMany_availFlag]; rfl
    have hmem := init_putMany_memory 20000 ts
    rw [ReplayMemory.is_available, hflag]
    simp only [Bool.false_eq_true, if_false]
    rw [hmem]
    simp only [List.length_drop]
    apply decide_eq_decide.mpr
    show BATCH_SIZE < ts.length - (ts.length - 20000) ↔ BATCH_SIZE < ts.length
    rw [BATCH_SIZE]
    omega
  · intro s hs us
    have hflag : ((s.is_available).snd).availFlag = true := by
      by_cases h : s.availFlag
      · simp [ReplayMemory.is_available, h]
      · rw [ReplayMemory.is_available] at hs ⊢
        simp only [h, Bool.false_eq_true, if_false] at hs ⊢
        exact hs
    generalize hgen : ((s.is_available).snd).putMany us = w
    have hw : w.availFlag = true := by
      rw [← hgen, putMany_availFlag]; exact hflag
    simp [ReplayMemory.is_available, hw]

/-- Witness for `is_available_latch`: 17 puts flip the latch to `true`, and
after one more put (and any eviction behaviour) it is still `true`. -/
theorem is_available_latch_use :
    ((((((ReplayMemory.init : ReplayMemory Nat).putMany
        (List.range 17)).is_available).snd).putMany [99]).is_available).fst = true :=
  (is_available_latch (List.range 17)).2
    ((ReplayMemory.init : ReplayMemory Nat).putMany (List.range 17))
    (by rw [(is_available_latch (List.range 17)).1]; decide) [99]

/-- C3: FIFO eviction.  For every sequence of `put` calls longer than the
capacity, `size()` equals the capacity and the deque holds exactly the most
recent `capacity` items in insertion order; concretely, with capacity 3,
putting 5 distinct transitions leaves exactly transitions #3, #4, #5. -/
theorem put_fifo_eviction (cap : Nat) (ts : List τ) (h : cap < ts.length) :
    ((ReplayMemory.init cap : ReplayMemory τ).putMany ts).size = cap
    ∧ ((ReplayMemory.init cap : ReplayMemory τ).putMany ts).memory =
        ts.drop (ts.length - cap)
    ∧ ((ReplayMemory.init 3 : ReplayMemory (Transition Nat Nat Nat)).putMany
        [⟨1,1,1,1⟩, ⟨2,2,2,2⟩, ⟨3,3,3,3⟩, ⟨4,4,4,4⟩, ⟨5,5,5,5⟩]).memory =
        [⟨3,3,3,3⟩, ⟨4,4,4,4⟩, ⟨5,5,5,5⟩] := by
  refine ⟨?_, init_putMany_memory cap ts, by decide⟩
  rw [ReplayMemory.size, init_putMany_memory cap ts]
  simp only [List.length_drop]
  omega

/-- Witness for `put_fifo_eviction` at capacity 3 with 5 transitions. -/
theorem put_fifo_eviction_use :
    ((ReplayMemory.init 3 : ReplayMemory (Transition Nat Nat Nat)).putMany
        [⟨1,1,1,1⟩, ⟨2,2,2,2⟩, ⟨3,3,3,3⟩, ⟨4,4,4,4⟩, ⟨5,5,5,5⟩]).size = 3 :=
  (@put_fifo_eviction (Transition Nat Nat Nat) 3
    [⟨1,1,1,1⟩, ⟨2,2,2,2⟩, ⟨3,3,3,3⟩, ⟨4,4,4,4⟩, ⟨5,5,5,5⟩] (by decide)).1

theorem map_getD_range [Inhabited τ] (l : List τ) :
    (List.range l.length).map (fun i => l.getD i default) = l := by
  induction l with
  | nil => simp
  | cons x xs ih =>
      rw [List.length_cons, List.range_succ_eq_map, List.map_cons, List.map_map]
      simp only [Function.comp_def, Nat.succ_eq_add_one, List.getD_cons_zero,
        List.getD_cons_succ]
      rw [ih]

theorem map_getD_sub_multiset [Inhabited τ] (l : List τ) (idxs : List Nat)
    (hnd : idxs.Nodup) (hlt : ∀ i ∈ idxs, i < l.length) :
    ((idxs.map (fun i => l.getD i default) : List τ) : Multiset τ) ≤ (l : Multiset τ) := by
  have h1 : ((idxs : List Nat) : Multiset Nat) ≤ ((List.range l.length : List Nat) : Multiset Nat) := by
    rw [Multiset.le_iff_subset ((Multiset.coe_nodup).mpr hnd)]
    intro a ha
    rw [Multiset.mem_coe] at ha ⊢
    exact List.mem_range.mpr (hlt a ha)
  have h2 := Multiset.map_le_map (f := fun i => l.getD i default) h1
  rw [Multiset.map_coe, Multiset.map_coe, map_getD_range] at h2
  exact h2

/-- C8: `sample(k)` (with the `random.sample` randomness supplied as a list
of positions) never errors when `k ≤ size()`: the positions `0, …, k-1` give
a defined result.  Every defined result consists of exactly `k` transitions,
each drawn from the current contents, without replacement (the multiset of
sampled items is a sub-multiset of the stored items, so no stored element is
returned more often than it occurs).  When `k > size()`, every call errors
(`random.sample` raises `ValueError`). -/
theorem sample_without_replacement [Inhabited τ] (s : ReplayMemory τ)
    (k : Nat) (idxs : List Nat) (hk : k ≤ s.size) :
    (s.sample k (List.range k)).isSome = true
    ∧ (∀ l, s.sample k idxs = some l →
        l.length = k ∧ (∀ x ∈ l, x ∈ s.memory) ∧ ((l : Multiset τ) ≤ (s.memory : Multiset τ)))
    ∧ (∀ idxs₂ : List Nat, ∀ n, s.size < n → s.sample n idxs₂ = none) := by
  refine ⟨?_, ?_, ?_⟩
  · rw [ReplayMemory.sample, if_pos]
    · rfl
    · refine ⟨hk, List.length_range k, List.nodup_range k, ?_⟩
      intro i hi
      exact lt_of_lt_of_le (List.mem_range.mp hi) hk
  · intro l hl
    rw [ReplayMemory.sample] at hl
    by_cases hc : k ≤ s.memory.length ∧ idxs.length = k ∧ idxs.Nodup ∧
        (∀ i ∈ idxs, i < s.memory.length)
    · rw [if_pos hc] at hl
      obtain ⟨-, hlen, hnd, hlt⟩ := hc
      obtain rfl : idxs.map (fun i => s.memory.getD i default) = l := by
        exact Option.some.inj hl
      refine ⟨by simp [hlen], ?_, map_getD_sub_multiset s.memory idxs hnd hlt⟩
      intro x hx
      have hsub := map_getD_sub_multiset s.memory idxs hnd hlt
      have := Multiset.mem_of_le hsub (by rw [Multiset.mem_coe]; exact hx)
      rwa [Multiset.mem_coe] at this
    · rw [if_neg hc] at hl
      exact absurd hl (by simp)
  · intro idxs₂ n hn
    rw [ReplayMemory.sample, if_neg]
    intro hc
    exact absurd hc.1 (by rw [ReplayMemory.size] at hn; omega)

/-- Witness for `sample_without_replacement` on a concrete 3-element memory. -/
theorem sample_without_replacement_use :
    ((ReplayMemory.init 3 : ReplayMemory Nat).putMany [10, 20, 30]).sample 2 [2, 0] =
      some [30, 10] ∧
    ((ReplayMemory.init 3 : ReplayMemory Nat).putMany [10, 20, 30]).sample 4 [0, 1, 2, 3] =
      none := by
  have h := sample_without_replacement
    ((ReplayMemory.init 3 : ReplayMemory Nat).putMany [10, 20, 30]) 2 [2, 0] (by decide)
  exact ⟨by decide, h.2.2 [0, 1, 2, 3] 4 (by decide)⟩

/-- C4: the epsilon value of `select_action` is the stated pure function of
the step counter and the recent-play-length average.  First conjunct: the
NaN-aware computation at a real average agrees with the closed form
`epsilonAt`.  Second conjunct: `epsilonAt` is exactly
`EPSILON_END + (EPSILON_START - EPSILON_END) * exp(-step / EPSILON_DECAY)
 + 5 / (1 + avg)` with the numeric constants spelled out.  Third conjunct:
for a fixed bonus term (fixed average) it is monotonically non-increasing
in the step counter. -/
theorem epsilon_schedule (step s1 s2 : Nat) (avg : ℝ) (h : s1 ≤ s2) :
    epsilonF step (some avg) = some (epsilonAt step avg)
    ∧ epsilonAt step avg =
        0.05 + (1 - 0.05) * Real.exp (-1 * (step : ℝ) / 20000) + 5 / (1 + avg)
    ∧ epsilonAt s2 avg ≤ epsilonAt s1 avg := by
  refine ⟨?_, ?_, ?_⟩
  · simp [epsilonF, nanAdd, nanDiv, epsilonAt]
  · rw [epsilonAt, EPSILON_START, EPSILON_END, EPSILON_DECAY]
    norm_num
  · have hc : (0:ℝ) ≤ EPSILON_START - EPSILON_END := by
      rw [EPSILON_START, EPSILON_END]; norm_num
    have h1 : (s1 : ℝ) ≤ (s2 : ℝ) := Nat.cast_le.mpr h
    have hexp : Real.exp (-1 * (s2 : ℝ) / EPSILON_DECAY) ≤
        Real.exp (-1 * (s1 : ℝ) / EPSILON_DECAY) := by
      apply Real.exp_le_exp.mpr
      rw [EPSILON_DECAY]
      linarith
    have hmul := mul_le_mul_of_nonneg_left hexp hc
    rw [epsilonAt, epsilonAt]
    linarith

/-- Witness for `epsilon_schedule`: at steps 0 and 20000 with a zero
average, epsilon does not increase. -/
theorem epsilon_schedule_use : epsilonAt 20000 0 ≤ epsilonAt 0 0 :=
  (epsilon_schedule 0 0 20000 0 (by decide)).2.2

/-- C9: before the first episode has completed, `_play_steps` is empty
(fresh agents start with an empty deque and `innerStep` never appends to
it — only episode termination does), so `play_step = np.mean([])` is NaN,
the epsilon computed by `select_action` is NaN, the comparison
`epsilon > random()` is false, and `select_action` always returns the
greedy network-argmax action. -/
theorem first_episode_greedy (stepO : Nat → EnvStep ρ) (screenO : Nat → φ)
    (policy : Nat → α) (ar fs : Nat) (s : TrainSt φ ρ α)
    (s2 : TrainSt φ ρ α) (d : Bool)
    (hstep : innerStep stepO screenO policy ar fs s = some (s2, d)) :
    s2.playStepsLog = s.playStepsLog
    ∧ playStepAvg [] = none
    ∧ (∀ n : Nat, epsilonF n (playStepAvg []) = none)
    ∧ (∀ n : Nat, ∀ r : ℝ, nanGtB (epsilonF n (playStepAvg [])) r = false)
    ∧ (∀ n : Nat, ∀ r : ℝ, ∀ randomA : Nat, ∀ q : List ℝ,
        selectActionM (epsilonF n (playStepAvg [])) r randomA q = netArgmax q) := by
  have hlog : s2.playStepsLog = s.playStepsLog := by
    rw [innerStep] at hstep
    rcases hres : (skipLoop stepO screenO ar fs (s.envT, s.buffer) none).2 with - | rd
    · rw [hres] at hstep
      exact absurd hstep (by simp)
    · rcases rd with ⟨r, d2⟩
      rw [hres] at hstep
      simp only [Option.some.injEq, Prod.mk.injEq] at hstep
      rw [← hstep.1]
  have havg : playStepAvg [] = none := by rw [playStepAvg]; simp
  have heps : ∀ n : Nat, epsilonF n (playStepAvg []) = none := by
    intro n
    rw [havg]
    simp [epsilonF, nanAdd, nanDiv]
  refine ⟨hlog, havg, heps, ?_, ?_⟩
  · intro n r
    rw [heps n, nanGtB]
  · intro n r randomA q
    rw [selectActionM, heps n, nanGtB]
    simp

/-- Witness for `first_episode_greedy` on a concrete one-step environment. -/
theorem first_episode_greedy_use :
    selectActionM (epsilonF 0 (playStepAvg [])) (1/2) 7 [0, 1] = netArgmax [0, 1] :=
  (first_episode_greedy (fun _ => EnvStep.mk (1:Nat) true) (fun _ => (0:Nat))
    (fun _ => (0:Nat)) 4 4
    { stepC := 0, envT := 0, sel := 0, buffer := [], states := []
      replay := ReplayMemory.init, playStepsLog := [], playSteps := 0 }
    _ _ rfl).2.2.2.2 0 (1/2) 7 [0, 1]

theorem onlineSteps_frame [Inhabited P] (fs : List (P → P)) (st : Nets P)
    (hne : st.dqnRef ≠ st.targetRef) :
    (fs.foldl (fun s f => s.onlineStep f) st).read st.targetRef =
      st.read st.targetRef := by
  induction fs generalizing st with
  | nil => rfl
  | cons f fs ih =>
      have h2 : (st.onlineStep f).targetRef = st.targetRef := rfl
      show (fs.foldl (fun s f => s.onlineStep f) (st.onlineStep f)).read
        st.targetRef = st.read st.targetRef
      rw [← h2, ih (st.onlineStep f) hne, h2]
      show (st.heap.set st.dqnRef _).getD st.targetRef default =
        st.heap.getD st.targetRef default
      simp [List.getD_eq_getElem?_getD, List.getElem?_set_ne hne]

/-- C5: after `_target_update()` the target network's parameters are equal,
element-wise, to the online network's (first conjunct: both references
dereference to the same parameter set), and because the update is a deep
copy into fresh storage, any sequence of subsequent in-place optimizer
mutations of the online parameters leaves the target parameters unchanged
at their pre-update online values (second conjunct). -/
theorem target_deepcopy_independent [Inhabited P] (a : Nets P)
    (h : a.dqnRef < a.heap.length) :
    (a.targetUpdate).read (a.targetUpdate).targetRef =
        (a.targetUpdate).read (a.targetUpdate).dqnRef
    ∧ ∀ fs : List (P → P),
        (fs.foldl (fun st f => st.onlineStep f) a.targetUpdate).read
          (a.targetUpdate).targetRef = a.read a.dqnRef := by
  have hT : (a.targetUpdate).read (a.targetUpdate).targetRef = a.read a.dqnRef := by
    show (a.heap ++ [a.heap.getD a.dqnRef default]).getD a.heap.length default =
      a.heap.getD a.dqnRef default
    simp [List.getD_eq_getElem?_getD, List.getElem?_concat_length]
  have hD : (a.targetUpdate).read (a.targetUpdate).dqnRef = a.read a.dqnRef := by
    show (a.heap ++ [a.heap.getD a.dqnRef default]).getD a.dqnRef default =
      a.heap.getD a.dqnRef default
    simp [List.getD_eq_getElem?_getD, List.getElem?_append_left h]
  refine ⟨hT.trans hD.symm, ?_⟩
  intro fs
  have hne : (a.targetUpdate).dqnRef ≠ (a.targetUpdate).targetRef := by
    show a.dqnRef ≠ a.heap.length
    omega
  rw [onlineSteps_frame fs a.targetUpdate hne, hT]

/-- Witness for `target_deepcopy_independent`: a two-cell heap where an
online update (adding 5) happens after the target copy; the target still
reads the pre-update online value 10. -/
theorem target_deepcopy_independent_use :
    (([fun p => p + 5] : List (Nat → Nat)).foldl (fun st f => st.onlineStep f)
        (Nets.targetUpdate ⟨[10, 20], 0, 1⟩)).read
      (Nets.targetUpdate (⟨[10, 20], 0, 1⟩ : Nets Nat)).targetRef = 10 :=
  (target_deepcopy_independent ⟨[10, 20], 0, 1⟩ (by decide)).2 [fun p => p + 5]

/-- C7: the frame buffer initialized by `get_initial_states` holds exactly
`action_repeat` copies of the first frame; it keeps length `action_repeat`
under every sequence of `add_state` pushes; and a push onto a full buffer
drops the oldest frame while keeping the remaining newest frames in order. -/
theorem frame_buffer_invariant (ar : Nat) (f : φ) (h : 0 < ar) :
    (initialBuffer ar f).length = ar
    ∧ (∀ xs : List φ, (xs.foldl (addState ar) (initialBuffer ar f)).length = ar)
    ∧ (∀ (b : List φ) (x : φ), b.length = ar → addState ar b x = b.drop 1 ++ [x]) := by
  refine ⟨by simp [initialBuffer], ?_, ?_⟩
  · have key : ∀ (xs b : List φ), b.length = ar →
        (xs.foldl (addState ar) b).length = ar := by
      intro xs
      induction xs with
      | nil => intro b hb; simpa using hb
      | cons x xs ih =>
          intro b hb
          apply ih
          rw [addState, dequeAppend_length, hb]
          omega
    intro xs
    exact key xs _ (by simp [initialBuffer])
  · intro b x hb
    rw [addState, dequeAppend, hb]
    have h1 : ar + 1 - ar = 1 := by omega
    rw [h1, List.drop_append_of_le_length (by omega)]

/-- Witness for `frame_buffer_invariant` with `action_repeat = 4`: a push
onto the full buffer `[1, 2, 3, 4]` drops the oldest frame. -/
theorem frame_buffer_invariant_use :
    addState 4 [1, 2, 3, 4] 9 = ([1, 2, 3, 4] : List Nat).drop 1 ++ [9] :=
  (frame_buffer_invariant 4 (0 : Nat) (by decide)).2.2 [1, 2, 3, 4] 9 rfl

theorem is_available_snd_memory (s : ReplayMemory τ) :
    ((s.is_available).snd).memory = s.memory := by
  rw [ReplayMemory.is_available]
  by_cases h : s.availFlag <;> simp [h]

theorem is_available_snd_capacity (s : ReplayMemory τ) :
    ((s.is_available).snd).capacity = s.capacity := by
  rw [ReplayMemory.is_available]
  by_cases h : s.availFlag <;> simp [h]

theorem dequeAppend_of_lt (cap : Nat) (l : List τ) (x : τ) (h : l.length < cap) :
    dequeAppend cap l x = l ++ [x] := by
  rw [dequeAppend, Nat.sub_eq_zero_of_le (by omega), List.drop_zero]

theorem skipLoop_last (stepO : Nat → EnvStep ρ) (screenO : Nat → φ)
    (ar : Nat) :
    ∀ (k t : Nat) (buf : List φ) (last : Option (ρ × Bool)), 0 < k →
      (skipLoop stepO screenO ar k (t, buf) last).2 =
        some ((stepO (t + execCount stepO t k - 1)).reward,
              (stepO (t + execCount stepO t k - 1)).done) := by
  intro k
  induction k with
  | zero => intro t buf last hk; omega
  | succ k ih =>
      intro t buf last _
      simp only [skipLoop, execCount]
      by_cases hd : (stepO t).done
      · rw [if_pos hd, if_pos hd]
        have hidx : t + 1 - 1 = t := by omega
        rw [hidx, hd]
      · rw [if_neg hd, if_neg hd]
        rcases Nat.eq_zero_or_pos k with hk0 | hk0
        · subst hk0
          simp only [skipLoop, execCount]
          have hidx : t + (1 + 0) - 1 = t := by omega
          rw [hidx]
          rw [Bool.not_eq_true] at hd
          rw [hd]
        · rw [ih (t + 1) (addState ar buf (screenO (t + 1)))
            (some ((stepO t).reward, false)) hk0]
          have hidx : t + 1 + execCount stepO (t + 1) k - 1 =
              t + (1 + execCount stepO (t + 1) k) - 1 := by omega
          rw [hidx]

/-- C10: the reward stored by one inner step of `Agent.train` is the reward
returned by the last executed frame-skip substep only — the loop variable is
overwritten on each of the up-to-`frame_skipping` `env.step` calls.  First
conjunct: for any environment, the transition appended to replay memory
carries the reward of substep number `execCount` (the last one executed).
Second conjunct: concretely, with per-substep rewards 1, 2, 3, 4 and no
terminal state, the surviving reward is 4 — not the sum 10. -/
theorem stored_reward_last_substep (stepO : Nat → EnvStep ρ) (screenO : Nat → φ)
    (policy : Nat → α) (ar k : Nat) (s : TrainSt φ ρ α) :
    (∃ (s2 : TrainSt φ ρ α) (d : Bool) (buf2 : List φ),
        innerStep stepO screenO policy ar (k + 1) s = some (s2, d)
        ∧ s2.replay.memory = dequeAppend s.replay.capacity s.replay.memory
            ⟨s.states, policy s.sel,
              (stepO (s.envT + execCount stepO s.envT (k + 1) - 1)).reward, buf2⟩)
    ∧ ((skipLoop (fun i => EnvStep.mk ((i : ℚ) + 1) false) (fun _ => (0 : Nat))
          4 4 (0, []) none).2 = some (4, false)
        ∧ (4 : ℚ) ≠ 1 + 2 + 3 + 4) := by
  constructor
  · have hres := skipLoop_last stepO screenO ar (k + 1) s.envT s.buffer none
      (Nat.succ_pos k)
    have hinner : innerStep stepO screenO policy ar (k + 1) s =
        some ({ s with
                  envT := (skipLoop stepO screenO ar (k + 1) (s.envT, s.buffer) none).1.1
                  sel := s.sel + 1
                  buffer := (skipLoop stepO screenO ar (k + 1) (s.envT, s.buffer) none).1.2
                  states := (skipLoop stepO screenO ar (k + 1) (s.envT, s.buffer) none).1.2
                  replay := ((s.replay.put ⟨s.states, policy s.sel,
                      (stepO (s.envT + execCount stepO s.envT (k + 1) - 1)).reward,
                      (skipLoop stepO screenO ar (k + 1) (s.envT, s.buffer) none).1.2⟩).is_available).snd },
              (stepO (s.envT + execCount stepO s.envT (k + 1) - 1)).done) := by
      simp only [innerStep, hres]
    refine ⟨_, _, (skipLoop stepO screenO ar (k + 1) (s.envT, s.buffer) none).1.2,
      hinner, ?_⟩
    dsimp only
    rw [is_available_snd_memory]
    rfl
  · constructor
    · norm_num [skipLoop, execCount, addState, dequeAppend]
    · norm_num

/-- C6: for an environment that returns `done = True` with reward `1.0` on
the episode's first step, one iteration of `Agent.train`'s outer loop stores
exactly one `Transition` (the pre-skip initial state, the chosen action,
reward 1, and the one-frame-advanced buffer), leaves `self.step` unchanged
(the inner loop breaks on `done` before the increment), and records
`play_steps = 0` in the `_play_steps` deque. -/
theorem one_step_terminal_episode (stepO : Nat → EnvStep ℚ) (screenO : Nat → φ)
    (policy : Nat → α) (ar k fuel : Nat) (s : TrainSt φ ℚ α)
    (hE : stepO 0 = ⟨1, true⟩)
    (hcap : s.replay.memory.length < s.replay.capacity) :
    ∃ s' : TrainSt φ ℚ α,
      runEpisode stepO screenO policy ar (k + 1) (fuel + 1) s = some s'
      ∧ s'.replay.memory = s.replay.memory ++
          [⟨initialBuffer ar (screenO 0), policy s.sel, 1,
            addState ar (initialBuffer ar (screenO 0)) (screenO 1)⟩]
      ∧ s'.stepC = s.stepC
      ∧ s'.playStepsLog = dequeAppend 5 s.playStepsLog 0 := by
  have hskip : skipLoop stepO screenO ar (k + 1)
      (0, initialBuffer ar (screenO 0)) none =
      ((1, addState ar (initialBuffer ar (screenO 0)) (screenO 1)),
        some (1, true)) := by
    simp [skipLoop, hE]
  have hrun : runEpisode stepO screenO policy ar (k + 1) (fuel + 1) s =
      some { s with
               envT := 1
               sel := s.sel + 1
               buffer := addState ar (initialBuffer ar (screenO 0)) (screenO 1)
               states := addState ar (initialBuffer ar (screenO 0)) (screenO 1)
               replay := ((s.replay.put ⟨initialBuffer ar (screenO 0), policy s.sel, 1,
                   addState ar (initialBuffer ar (screenO 0)) (screenO 1)⟩).is_available).snd
               playStepsLog := dequeAppend 5 s.playStepsLog 0
               playSteps := 0 } := by
    simp only [runEpisode, episodeLoop, innerStep, hskip]
  refine ⟨_, hrun, ?_, rfl, rfl⟩
  show ((s.replay.put _).is_available).snd.memory = _
  rw [is_available_snd_memory]
  exact dequeAppend_of_lt _ _ _ hcap

/-- Witness for `one_step_terminal_episode`: a concrete always-terminal
environment, from a fresh agent state. -/
theorem one_step_terminal_episode_use :
    ∃ s' : TrainSt Nat ℚ Nat,
      runEpisode (fun _ => EnvStep.mk 1 true) (fun t => t) (fun _ => 0) 4 4 1
        { stepC := 0, envT := 0, sel := 0, buffer := [], states := []
          replay := ReplayMemory.init 3, playStepsLog := [], playSteps := 0 }
        = some s'
      ∧ s'.replay.memory = [] ++
          [⟨initialBuffer 4 ((fun t => t) 0), 0, 1,
            addState 4 (initialBuffer 4 ((fun t => t) 0)) ((fun t => t) 1)⟩]
      ∧ s'.stepC = 0
      ∧ s'.playStepsLog = dequeAppend 5 [] 0 :=
  one_step_terminal_episode (fun _ => EnvStep.mk 1 true) (fun t => t) (fun _ => 0)
    4 3 0
    { stepC := 0, envT := 0, sel := 0, buffer := [], states := []
      replay := ReplayMemory.init 3, playStepsLog := [], playSteps := 0 }
    rfl (by decide)

theorem lossTargets_length (gamma : ℝ) (qTarget : σ → List ℝ)
    (batch : List (Transition σ α ℝ)) :
    (lossTargets gamma qTarget batch).length = batch.length := by
  simp [lossTargets, targetVals]

/-- C1: in `Agent.optimize`, for every sampled batch the training target of
the `i`-th transition is `reward + gamma * max_a target_network(next_state)[a]`,
with no terminal-state masking: the stored `Transition` carries no `done`
flag (second conjunct: `replay.put` stores the same transition for a
terminal and a non-terminal step), so the continuation term
`gamma * max_a Q_target(next_state)` is included unconditionally — also for
transitions whose `next_state` is terminal. -/
theorem optimize_target_no_terminal_masking (gamma : ℝ) (qTarget : σ → List ℝ)
    (batch : List (Transition σ α ℝ)) (i : Nat) (hi : i < batch.length) :
    (lossTargets gamma qTarget batch).get ⟨i, by rw [lossTargets_length]; exact hi⟩ =
      (batch.get ⟨i, hi⟩).reward +
        gamma * tmax (qTarget ((batch.get ⟨i, hi⟩).next_state))
    ∧ (∀ t : EnvTransition σ α ℝ,
        lossTargets gamma qTarget [storeTransition t] =
          [t.reward + gamma * tmax (qTarget t.next_state)]
        ∧ storeTransition { t with done := true } =
            storeTransition { t with done := false }) := by
  constructor
  · simp only [List.get_eq_getElem, lossTargets, targetVals, List.getElem_zipWith,
      List.getElem_map]
    ring
  · intro t
    refine ⟨?_, rfl⟩
    simp only [lossTargets, targetVals, storeTransition, List.map_cons,
      List.map_nil, List.zipWith_cons_cons, List.zipWith_nil_right]
    rw [mul_comm]

/-- Witness for `optimize_target_no_terminal_masking`: a singleton batch
with reward 3, a constant target network with values `[2, 5]`, and
`gamma = 1/2`; the target is `3 + (1/2) * 5`. -/
theorem optimize_target_no_terminal_masking_use :
    (lossTargets (1/2) (fun _ => ([2, 5] : List ℝ))
        ([⟨0, 0, 3, 0⟩] : List (Transition Nat Nat ℝ))).get
      ⟨0, by rw [lossTargets_length]; decide⟩ =
      (([⟨0, 0, 3, 0⟩] : List (Transition Nat Nat ℝ)).get ⟨0, by decide⟩).reward +
        (1/2) * tmax ((fun _ => ([2, 5] : List ℝ))
          ((([⟨0, 0, 3, 0⟩] : List (Transition Nat Nat ℝ)).get ⟨0, by decide⟩).next_state)) :=
  (optimize_target_no_terminal_masking (1/2) (fun _ => ([2, 5] : List ℝ))
    [⟨0, 0, 3, 0⟩] 0 (by decide)).1

end DQNSpec
